import Mathlib

/-!
Verification of the CI maintenance scripts of this repository:
`scripts/python/remove-buildkit-cache.py` (the cache pruner) and
`scripts/python/delete-image.py` (the single-tag deleter).

The scripts talk to a REST API over HTTP.  We embed them shallowly:

* JSON-decoded response bodies are values of the inductive type `Json`.
* An HTTP response is a record of its status code, its JSON-decoded body and
  the parsed value of the `x-total-pages` response header (`none` when the
  header is absent).  Responses whose bodies are not valid JSON are outside
  the model (the scripts would raise while decoding them).
* The network is an oracle: a function from request parameters (page number,
  repository id, tag name) to responses.  Each script run is a pure function
  of that oracle; the requests it issues are returned as an explicit trace.
* Python exceptions that the scripts do not catch (`KeyError`, `TypeError`
  on malformed records) are modelled with `Option`/completion flags.
-/

/-- A JSON value, as returned by `response.json()`. Numbers are modelled as
integers (the scripts never use fractional values). Objects are association
lists with the lookup discipline of Python dicts (first binding wins). -/
inductive Json where
  | null : Json
  | bool (b : Bool) : Json
  | num (n : Int) : Json
  | str (s : String) : Json
  | arr (l : List Json) : Json
  | obj (kvs : List (String × Json)) : Json

/-- Python dict lookup `d[k]` / `d.get(k)` on an association list. -/
def jsonGet (key : String) : List (String × Json) → Option Json
  | [] => none
  | (k, v) :: kvs => if k = key then some v else jsonGet key kvs

/-- Python truthiness of a JSON-decoded value (`if data`). -/
def jsonTruthy : Json → Bool
  | Json.null => false
  | Json.bool b => b
  | Json.num n => n ≠ 0
  | Json.str s => s ≠ ""
  | Json.arr l => !l.isEmpty
  | Json.obj kvs => !kvs.isEmpty

/-- Python `==` between a JSON-decoded value and a string literal: equal
exactly when the value is that string (cross-type `==` is `False`). -/
def jsonEqStr (j : Json) (s : String) : Bool :=
  match j with
  | Json.str t => t = s
  | _ => false

/-- Loop body of `append_names`: a record contributes its `'name'` value when
it is a dict that has a `'name'` key, and is skipped otherwise. -/
def recordName : Json → Option Json
  | Json.obj kvs => jsonGet "name" kvs
  | _ => none

/-- `append_names(names, data)`: when `data` is a list, appends the `'name'`
value of every dict record that has one; otherwise leaves `names` unchanged
(after printing a warning, see `appendNamesWarns`). -/
def appendNames (names : List Json) (data : Json) : List Json :=
  match data with
  | Json.arr records => names ++ records.filterMap recordName
  | _ => names

/-- Whether `append_names` prints its warning: exactly when the top-level
`data` is not a list. The per-record loop never prints. -/
def appendNamesWarns : Json → Bool
  | Json.arr _ => false
  | _ => true

/-- `can_tag_be_deleted(branches, branch_name)` over raw JSON branch records.
`none` models a Python exception: a non-dict branch record, or a dict lacking
`'name'` (or lacking `'merged'` once its name matched).  `branch['name'] ==
branch_name` follows Python cross-type equality; `not branch['merged']` uses
Python truthiness. Returns `some false` at the first unmerged match. -/
def canTagBeDeleted (branchName : String) : List Json → Option Bool
  | [] => some true
  | b :: bs =>
    match b with
    | Json.obj kvs =>
      match jsonGet "name" kvs with
      | none => none
      | some v =>
        if jsonEqStr v branchName then
          match jsonGet "merged" kvs with
          | none => none
          | some m =>
            if jsonTruthy m then canTagBeDeleted branchName bs else some false
        else canTagBeDeleted branchName bs
    | _ => none

/-- `tag.replace("-", "/", 1)` on the character list: replace the first
occurrence of `'-'` by `'/'`. -/
def replaceFirstHyphen : List Char → List Char
  | [] => []
  | c :: cs => if c = '-' then '/' :: cs else c :: replaceFirstHyphen cs

/-- Python `s.replace("-", "/", 1)`. -/
def pyReplaceHyphenOnce (s : String) : String :=
  ⟨replaceFirstHyphen s.data⟩

/-- An HTTP response: status code, JSON-decoded body, and the parsed value of
the `x-total-pages` header (`none` when absent). -/
structure HttpResponse where
  status : Nat
  body : Json
  xTotalPages : Option Nat

/-- The tag-deletion loop of `process_cache_registry_repository`.  `dr` is the
oracle for the DELETE calls (tag name ↦ response); the code only prints the
DELETE response, so `dr` never influences control flow.  Returns the tag names
DELETEd, in order, paired with `true` when the loop completed without raising
(`false` models a Python exception on a malformed tag or branch record; the
first component still lists the DELETEs issued before the exception). -/
def pruneTags (branches : List Json) (dr : String → HttpResponse) :
    List Json → List String × Bool
  | [] => ([], true)
  | t :: ts =>
    if jsonEqStr t "latest" then pruneTags branches dr ts
    else
      match t with
      | Json.str s =>
        match canTagBeDeleted s branches with
        | none => ([], false)
        | some false => pruneTags branches dr ts
        | some true =>
          match canTagBeDeleted (pyReplaceHyphenOnce s) branches with
          | none => ([], false)
          | some false => pruneTags branches dr ts
          | some true =>
            let r := pruneTags branches dr ts
            (s :: r.1, r.2)
      | _ => ([], false)

/-- The tag total-page computation of `process_cache_registry_repository`:
`int(resp_headers.get('x-total-pages', 1) if data else 0)` — `0` when the
page-1 body is falsy, else the header value, defaulting to `1`. -/
def tagTotalPages (r : HttpResponse) : Nat :=
  if jsonTruthy r.body then r.xTotalPages.getD 1 else 0

/-- The `while page_num < total_pages` loop of the tag listing: fetch pages
`2..total`, skipping (with a log line) any page whose status is not 200, and
feed each successful body to `append_names`. -/
def tagPagesLoop (pages : Nat → HttpResponse) (total : Nat) (acc : List Json) :
    List Json :=
  (List.range' 2 (total - 1)).foldl
    (fun acc p =>
      let r := pages p
      if r.status ≠ 200 then acc else appendNames acc r.body)
    acc

/-- The tag-list pagination of `process_cache_registry_repository` (lines
35–64): `none` when the page-1 fetch does not return status 200 (the function
returns early); otherwise the accumulated `image_tags` list. -/
def fetchTags (pages : Nat → HttpResponse) : Option (List Json) :=
  let r1 := pages 1
  if r1.status ≠ 200 then none
  else some (tagPagesLoop pages (tagTotalPages r1) (appendNames [] r1.body))

/-- `if isinstance(data, list): branches.extend(data)` — the records of a
list body, and nothing from a non-list body. -/
def listOrNil : Json → List Json
  | Json.arr l => l
  | _ => []

/-- The `while page_num < total_pages` loop of the branch listing in `main`:
fetch pages `2..total`, skipping pages whose status is not 200, extending only
with list bodies. -/
def branchPagesLoop (pages : Nat → HttpResponse) (total : Nat)
    (acc : List Json) : List Json :=
  (List.range' 2 (total - 1)).foldl
    (fun acc p =>
      let r := pages p
      if r.status ≠ 200 then acc else acc ++ listOrNil r.body)
    acc

/-- The branch-list pagination of `main` (lines 109–143): `none` when page 1
fails (non-200 status) or its body is not a list (both return early);
otherwise the accumulated `branches` list.  The total page count comes from
the `x-total-pages` header, defaulting to 1, with no truthiness check. -/
def fetchBranches (pages : Nat → HttpResponse) : Option (List Json) :=
  let r1 := pages 1
  if r1.status ≠ 200 then none
  else
    match r1.body with
    | Json.arr l => some (branchPagesLoop pages (r1.xTotalPages.getD 1) l)
    | _ => none

/-- The HTTP requests the pruner can issue. -/
inductive Req where
  | listRepos : Req
  | listBranches (page : Nat) : Req
  | listTags (repoId : Json) (page : Nat) : Req
  | deleteTag (repoId : Json) (tag : String) : Req

/-- The network as seen by one run of the pruner: the response to the
registry-repositories listing, and the responses to branch pages, tag pages
(per repository id) and tag DELETEs (per repository id and tag name).
`cacheRepositories` is the split value of `CACHE_REPOSITORIES`. -/
structure World where
  cacheRepositories : List String
  repoListResp : HttpResponse
  branchResp : Nat → HttpResponse
  tagResp : Json → Nat → HttpResponse
  deleteResp : Json → String → HttpResponse

/-- The id-collection loop of `main`: for each record of the repositories
body, when it is a dict whose `'name'` value is (a string) in the cache list,
take its `'id'` value — `none` models the `KeyError` when a matching record
has no `'id'` key. -/
def collectIds (cacheRepos : List String) : List Json → Option (List Json)
  | [] => some []
  | r :: rs =>
    match r with
    | Json.obj kvs =>
      let nameInCache := match jsonGet "name" kvs with
        | some (Json.str s) => cacheRepos.contains s
        | _ => false
      if nameInCache then
        match jsonGet "id" kvs with
        | none => none
        | some i => (collectIds cacheRepos rs).map (i :: ·)
      else collectIds cacheRepos rs
    | _ => collectIds cacheRepos rs

/-- One call of `process_cache_registry_repository`, as the requests it
issues (in order) and whether it completed without raising.  A page-1 failure
returns early (normal completion, only the page-1 request).  Otherwise all
pages `2..total` are requested, then the prunable tags are DELETEd. -/
def processRepoReqs (w : World) (branches : List Json) (rid : Json) :
    List Req × Bool :=
  let r1 := w.tagResp rid 1
  if r1.status ≠ 200 then ([Req.listTags rid 1], true)
  else
    let total := tagTotalPages r1
    let tags := tagPagesLoop (w.tagResp rid) total (appendNames [] r1.body)
    let pr := pruneTags branches (w.deleteResp rid) tags
    (Req.listTags rid 1 ::
      ((List.range' 2 (total - 1)).map (Req.listTags rid)
        ++ pr.1.map (Req.deleteTag rid)),
      pr.2)

/-- The final loop of `main`: process each resolved repository in order; an
uncaught exception inside one call aborts the whole run. -/
def repoLoop (w : World) (branches : List Json) : List Json → List Req
  | [] => []
  | rid :: rest =>
    let pr := processRepoReqs w branches rid
    pr.1 ++ (if pr.2 then repoLoop w branches rest else [])

/-- One run of `main`, as the trace of HTTP requests it issues.  Mirrors the
source: repository listing (abort on non-200 status or non-list body, or when
no names match), branch page 1 (abort on non-200 status or non-list body),
branch pages `2..total`, then per-repository tag processing. -/
def run (w : World) : List Req :=
  Req.listRepos ::
  (if w.repoListResp.status ≠ 200 then []
   else
     match w.repoListResp.body with
     | Json.arr repos =>
       (match collectIds w.cacheRepositories repos with
        | none => []
        | some [] => []
        | some (i :: is) =>
          Req.listBranches 1 ::
          (let r1 := w.branchResp 1
           if r1.status ≠ 200 then []
           else
             match r1.body with
             | Json.arr l =>
               let total := r1.xTotalPages.getD 1
               (List.range' 2 (total - 1)).map Req.listBranches
                 ++ repoLoop w (branchPagesLoop w.branchResp total l) (i :: is)
             | _ => []))
     | _ => [])

/-- A branch as the spec's data model describes it: `{ name, merged }`.
Used to state properties over well-formed branch lists. -/
structure Branch where
  name : String
  merged : Bool
deriving DecidableEq

/-- The JSON record the branch API returns for a `Branch`. -/
def Branch.toJson (b : Branch) : Json :=
  Json.obj [("name", Json.str b.name), ("merged", Json.bool b.merged)]

/-- The per-tag deletability test of the pruning loop, as a single predicate:
a string tag other than `"latest"` whose two candidate branch names both pass
`can_tag_be_deleted` maps to its name; every other tag maps to `none` (tags on
which the loop would raise are also `none` here — callers that need the
distinction use `pruneTags` directly). -/
def prunableName (branches : List Json) : Json → Option String
  | Json.str s =>
    if s = "latest" then none
    else
      match canTagBeDeleted s branches,
            canTagBeDeleted (pyReplaceHyphenOnce s) branches with
      | some true, some true => some s
      | _, _ => none
  | _ => none

/-!
The single-tag deleter, `scripts/python/delete-image.py`.  The `gitlab`
client library is external; it is modelled as an oracle world: the project
either resolves or raises the get-error the script catches, and each registry
repository carries its location and the set of tag ids that `tags.get` finds.
`tag.delete()` is modelled as succeeding whenever the tag was found (server
errors on the DELETE itself are outside the three not-found outcomes the
script distinguishes).
-/

/-- A registry repository as the tag deleter sees it. -/
structure GLRepository where
  location : String
  tags : List String
deriving DecidableEq

/-- The GitLab instance as seen by one run of the tag deleter. -/
structure GitLabWorld where
  projectExists : Bool
  repositories : List GLRepository

/-- The messages the tag deleter prints. -/
inductive Msg where
  | deletedTag (tag loc : String) : Msg
  | tagNotFound (tag loc : String) : Msg
  | repoNotFound (loc : String) : Msg
  | projectNotFound (pid url : String) : Msg
deriving DecidableEq

/-- `delete_tag(repository)`: try `tags.get`; on success delete and print the
success line, on the get-error print the tag-not-found line.  Returns the
deletions performed (as location–tag pairs) and the message printed. -/
def deleteTag (repo : GLRepository) (tagName loc : String) :
    List (String × String) × Msg :=
  if repo.tags.contains tagName then
    ([(repo.location, tagName)], Msg.deletedTag tagName loc)
  else
    ([], Msg.tagNotFound tagName loc)

/-- `find_repository_and_delete_tag()`: resolve the project (printing the
project-not-found line on the get-error), call `delete_tag` on every listed
repository whose location equals the argument, and print the repository-not-
found line when none matched.  Returns (deletions performed, messages
printed, in order).  The function always returns — the script then exits 0. -/
def findRepositoryAndDeleteTag (w : GitLabWorld)
    (serverUrl pid loc tagName : String) :
    List (String × String) × List Msg :=
  if w.projectExists then
    let hits := w.repositories.filter (fun r => loc = r.location)
    let results := hits.map (fun r => deleteTag r tagName loc)
    let dels := (results.map (·.1)).flatten
    let msgs := results.map (·.2)
    if hits.isEmpty then (dels, msgs ++ [Msg.repoNotFound loc])
    else (dels, msgs)
  else ([], [Msg.projectNotFound pid serverUrl])

/-- Recognizes a DELETE request for the tag `"latest"` (any repository). -/
def isLatestDelete : Req → Bool
  | Req.deleteTag _ tag => tag = "latest"
  | _ => false

/-- A constant DELETE-response oracle, used by concrete instances. -/
def dr0 : String → HttpResponse := fun _ => ⟨200, Json.null, none⟩

/-- The world exhibiting the C2 counterexample: one cache repository whose
page-1 tag listing contains the name `"a"` twice, and no branches. -/
def wC2 : World where
  cacheRepositories := ["cache"]
  repoListResp :=
    ⟨200, Json.arr [Json.obj [("name", Json.str "cache"), ("id", Json.num 1)]], none⟩
  branchResp := fun _ => ⟨200, Json.arr [], some 1⟩
  tagResp := fun _ _ =>
    ⟨200, Json.arr [Json.obj [("name", Json.str "a")],
                    Json.obj [("name", Json.str "a")]], some 1⟩
  deleteResp := fun _ _ => ⟨200, Json.null, none⟩

/-- A world whose tag page 1 is an empty list with header value 7. -/
def wC8a : World where
  cacheRepositories := []
  repoListResp := ⟨200, Json.arr [], none⟩
  branchResp := fun _ => ⟨200, Json.arr [], none⟩
  tagResp := fun _ _ => ⟨200, Json.arr [], some 7⟩
  deleteResp := fun _ _ => ⟨200, Json.null, none⟩

/-- A world whose tag page 1 is a non-empty list with no header. -/
def wC8b : World where
  cacheRepositories := []
  repoListResp := ⟨200, Json.arr [], none⟩
  branchResp := fun _ => ⟨200, Json.arr [], none⟩
  tagResp := fun _ _ => ⟨200, Json.arr [Json.obj [("name", Json.str "a")]], none⟩
  deleteResp := fun _ _ => ⟨200, Json.null, none⟩

/-- A project with two repositories at the same location `"r"`, both holding
tag `"t"`, and one unrelated repository. -/
def wC9 : GitLabWorld where
  projectExists := true
  repositories := [⟨"r", ["t"]⟩, ⟨"q", []⟩, ⟨"r", ["t", "u"]⟩]

/-- Worlds for the three not-found conditions of the tag deleter. -/
def wC6a : GitLabWorld := ⟨false, []⟩

def wC6b : GitLabWorld := ⟨true, [⟨"other", ["t"]⟩]⟩

def wC6c : GitLabWorld := ⟨true, [⟨"r", ["s"]⟩]⟩

/-- Tag pages whose page 1 is a well-formed empty list reporting
`x-total-pages = 2`, with a well-formed page 2 holding one record. -/
def c4CexPages : Nat → HttpResponse := fun p =>
  if p = 1 then ⟨200, Json.arr [], some 2⟩
  else ⟨200, Json.arr [Json.obj [("name", Json.str "a")]], some 2⟩

/-- Two well-formed pages for the C4 witness. -/
def c4WitPages : Nat → HttpResponse := fun p =>
  if p = 1 then ⟨200, Json.arr [Json.obj [("name", Json.str "a")]], some 2⟩
  else ⟨200, Json.arr [Json.obj [("name", Json.str "b")]], some 2⟩

/-- The page contents of `c4WitPages`. -/
def c4WitL : Nat → List Json := fun p =>
  if p = 1 then [Json.obj [("name", Json.str "a")]]
  else [Json.obj [("name", Json.str "b")]]

/-- A world whose repository listing fails. -/
def wC7a : World where
  cacheRepositories := []
  repoListResp := ⟨500, Json.null, none⟩
  branchResp := fun _ => ⟨200, Json.arr [], none⟩
  tagResp := fun _ _ => ⟨200, Json.arr [], none⟩
  deleteResp := fun _ _ => ⟨200, Json.null, none⟩

/-- A world with one resolved cache repository whose branch page 1 fails. -/
def wC7b : World where
  cacheRepositories := ["cache"]
  repoListResp :=
    ⟨200, Json.arr [Json.obj [("name", Json.str "cache"), ("id", Json.num 1)]], none⟩
  branchResp := fun _ => ⟨500, Json.null, none⟩
  tagResp := fun _ _ => ⟨200, Json.arr [], none⟩
  deleteResp := fun _ _ => ⟨200, Json.null, none⟩

/-! ### Helper lemmas -/

theorem appendNames_split (names : List Json) (d : Json) :
    appendNames names d = names ++ appendNames [] d := by
  cases d <;> simp [appendNames]

theorem tagPagesLoop_eq_flatten (pages : Nat → HttpResponse) :
    ∀ (l : List Nat) (acc : List Json),
      l.foldl
        (fun acc p =>
          let r := pages p
          if r.status ≠ 200 then acc else appendNames acc r.body) acc
      = acc ++ (l.map (fun p =>
          if (pages p).status = 200 then appendNames [] (pages p).body
          else [])).flatten := by
  intro l
  induction l with
  | nil => simp
  | cons p ps ih =>
    intro acc
    simp only [List.foldl_cons, List.map_cons, List.flatten_cons, ih]
    by_cases h : (pages p).status = 200
    · rw [if_neg (by simp [h]), if_pos h, appendNames_split, List.append_assoc]
    · rw [if_pos (by simp [h]), if_neg h, List.nil_append]

theorem tagPagesLoop_char (pages : Nat → HttpResponse) (total : Nat)
    (acc : List Json) :
    tagPagesLoop pages total acc
      = acc ++ ((List.range' 2 (total - 1)).map (fun p =>
          if (pages p).status = 200 then appendNames [] (pages p).body
          else [])).flatten :=
  tagPagesLoop_eq_flatten pages _ acc

theorem branchPagesLoop_eq_flatten (pages : Nat → HttpResponse) :
    ∀ (l : List Nat) (acc : List Json),
      l.foldl
        (fun acc p =>
          let r := pages p
          if r.status ≠ 200 then acc else acc ++ listOrNil r.body) acc
      = acc ++ (l.map (fun p =>
          if (pages p).status = 200 then listOrNil (pages p).body
          else [])).flatten := by
  intro l
  induction l with
  | nil => simp
  | cons p ps ih =>
    intro acc
    simp only [List.foldl_cons, List.map_cons, List.flatten_cons, ih]
    by_cases h : (pages p).status = 200
    · rw [if_neg (by simp [h]), if_pos h, List.append_assoc]
    · rw [if_pos (by simp [h]), if_neg h, List.nil_append]

theorem branchPagesLoop_char (pages : Nat → HttpResponse) (total : Nat)
    (acc : List Json) :
    branchPagesLoop pages total acc
      = acc ++ ((List.range' 2 (total - 1)).map (fun p =>
          if (pages p).status = 200 then listOrNil (pages p).body
          else [])).flatten :=
  branchPagesLoop_eq_flatten pages _ acc

theorem canTagBeDeleted_map (n : String) :
    ∀ bs : List Branch,
      canTagBeDeleted n (bs.map Branch.toJson)
        = some (bs.all (fun b => b.name != n || b.merged)) := by
  intro bs
  induction bs with
  | nil => rfl
  | cons b bs ih =>
    by_cases h : b.name = n
    · by_cases hm : b.merged
      · simp [canTagBeDeleted, Branch.toJson, jsonGet, jsonEqStr, jsonTruthy,
          h, hm, ih]
      · simp [canTagBeDeleted, Branch.toJson, jsonGet, jsonEqStr, jsonTruthy,
          h, hm]
    · simp [canTagBeDeleted, Branch.toJson, jsonGet, jsonEqStr, jsonTruthy,
        h, ih]

theorem all_unmergedFree_iff (n : String) (bs : List Branch) :
    bs.all (fun b => b.name != n || b.merged) = true
      ↔ ∀ b ∈ bs, b.name = n → b.merged = true := by
  simp only [List.all_eq_true, Bool.or_eq_true, bne_iff_ne, ne_eq]
  constructor
  · intro h b hb hn
    rcases h b hb with h' | h'
    · exact absurd hn h'
    · exact h'
  · intro h b hb
    by_cases hn : b.name = n
    · exact Or.inr (h b hb hn)
    · exact Or.inl hn

theorem pruneTags_dr_invariant (branches : List Json)
    (dr dr' : String → HttpResponse) :
    ∀ tags : List Json, pruneTags branches dr tags = pruneTags branches dr' tags := by
  intro tags
  induction tags with
  | nil => rfl
  | cons t ts ih =>
    simp only [pruneTags]
    split
    · exact ih
    · split
      · split
        · rfl
        · exact ih
        · split
          · rfl
          · exact ih
          · simp [ih]
      · rfl

theorem pruneTags_cons_str (branches : List Json) (dr : String → HttpResponse)
    (s : String) (ts : List Json) :
    pruneTags branches dr (Json.str s :: ts)
      = if s = "latest" then pruneTags branches dr ts
        else
          match canTagBeDeleted s branches with
          | none => ([], false)
          | some false => pruneTags branches dr ts
          | some true =>
            match canTagBeDeleted (pyReplaceHyphenOnce s) branches with
            | none => ([], false)
            | some false => pruneTags branches dr ts
            | some true =>
              (s :: (pruneTags branches dr ts).1, (pruneTags branches dr ts).2) := by
  rw [pruneTags]
  by_cases h : s = "latest" <;> simp [jsonEqStr, h]

theorem pruneTags_mem (branches : List Json) (dr : String → HttpResponse) :
    ∀ (tags : List Json) (t : String),
      t ∈ (pruneTags branches dr tags).1 →
      t ≠ "latest" ∧ canTagBeDeleted t branches = some true
        ∧ canTagBeDeleted (pyReplaceHyphenOnce t) branches = some true := by
  intro tags
  induction tags with
  | nil => intro t h; simp [pruneTags] at h
  | cons x ts ih =>
    intro t h
    cases x with
    | str s =>
      rw [pruneTags_cons_str] at h
      by_cases hlat : s = "latest"
      · rw [if_pos hlat] at h; exact ih t h
      · rw [if_neg hlat] at h
        match h1 : canTagBeDeleted s branches with
        | none => rw [h1] at h; simp at h
        | some false => rw [h1] at h; exact ih t h
        | some true =>
          rw [h1] at h
          match h2 : canTagBeDeleted (pyReplaceHyphenOnce s) branches with
          | none => rw [h2] at h; simp at h
          | some false => rw [h2] at h; exact ih t h
          | some true =>
            rw [h2] at h
            simp only [List.mem_cons] at h
            rcases h with rfl | h
            · exact ⟨hlat, h1, h2⟩
            · exact ih t h
    | null => simp [pruneTags, jsonEqStr] at h
    | bool b => simp [pruneTags, jsonEqStr] at h
    | num n => simp [pruneTags, jsonEqStr] at h
    | arr l => simp [pruneTags, jsonEqStr] at h
    | obj kvs => simp [pruneTags, jsonEqStr] at h

theorem pruneTags_char (branches : List Json) (dr : String → HttpResponse)
    (hbr : ∀ s : String, (canTagBeDeleted s branches).isSome = true) :
    ∀ tags : List Json, (∀ x ∈ tags, ∃ s, x = Json.str s) →
      pruneTags branches dr tags = (tags.filterMap (prunableName branches), true) := by
  intro tags
  induction tags with
  | nil => intro _; rfl
  | cons x ts ih =>
    intro hwf
    obtain ⟨s, rfl⟩ := hwf _ (List.mem_cons_self _ _)
    have hts := fun y hy => hwf y (List.mem_cons_of_mem _ hy)
    by_cases hlat : s = "latest"
    · subst hlat
      rw [pruneTags, if_pos (by simp [jsonEqStr])]
      rw [ih hts]
      simp [prunableName]
    · rw [pruneTags, if_neg (by simp [jsonEqStr, hlat])]
      match h1 : canTagBeDeleted s branches with
      | none => exact absurd (congrArg Option.isSome h1) (by simp [hbr s])
      | some false =>
        rw [ih hts]
        simp [prunableName, hlat, h1]
      | some true =>
        match h2 : canTagBeDeleted (pyReplaceHyphenOnce s) branches with
        | none =>
          exact absurd (congrArg Option.isSome h2)
            (by simp [hbr (pyReplaceHyphenOnce s)])
        | some false =>
          rw [ih hts]
          simp [prunableName, hlat, h1, h2]
        | some true =>
          rw [ih hts]
          simp [prunableName, hlat, h1, h2]

theorem pruneTags_count_latest (branches : List Json)
    (dr : String → HttpResponse) :
    ∀ tags : List Json, ((pruneTags branches dr tags).1.count "latest") = 0 := by
  intro tags
  induction tags with
  | nil => rfl
  | cons x ts ih =>
    cases x with
    | str s =>
      rw [pruneTags_cons_str]
      by_cases hs : s = "latest"
      · rw [if_pos hs]; exact ih
      · rw [if_neg hs]
        match canTagBeDeleted s branches with
        | none => rfl
        | some false => exact ih
        | some true =>
          match canTagBeDeleted (pyReplaceHyphenOnce s) branches with
          | none => rfl
          | some false => exact ih
          | some true => simp [List.count_cons, hs, ih]
    | null => simp [pruneTags, jsonEqStr]
    | bool b => simp [pruneTags, jsonEqStr]
    | num n => simp [pruneTags, jsonEqStr]
    | arr l => simp [pruneTags, jsonEqStr]
    | obj kvs => simp [pruneTags, jsonEqStr]

theorem pruneTags_count (bs : List Branch) (dr : String → HttpResponse)
    (t : String) (hlat : t ≠ "latest")
    (h1 : ∀ b ∈ bs, b.name = t → b.merged = true)
    (h2 : ∀ b ∈ bs, b.name = pyReplaceHyphenOnce t → b.merged = true) :
    ∀ ss : List String,
      ((pruneTags (bs.map Branch.toJson) dr (ss.map Json.str)).1.count t)
        = ss.count t := by
  intro ss
  induction ss with
  | nil => rfl
  | cons s ss ih =>
    simp only [List.map_cons]
    rw [pruneTags_cons_str]
    by_cases hslat : s = "latest"
    · rw [if_pos hslat]
      have hst : s ≠ t := by rw [hslat]; exact fun h => hlat h.symm
      rw [ih, List.count_cons]
      simp [hst]
    · rw [if_neg hslat]
      by_cases hst : s = t
      · subst hst
        rw [canTagBeDeleted_map, canTagBeDeleted_map]
        rw [(all_unmergedFree_iff s bs).mpr h1]
        rw [(all_unmergedFree_iff (pyReplaceHyphenOnce s) bs).mpr h2]
        simp [List.count_cons, ih]
      · rw [canTagBeDeleted_map, canTagBeDeleted_map]
        match bs.all (fun b => b.name != s || b.merged) with
        | false =>
          rw [List.count_cons, ih]
          simp [hst]
        | true =>
          match bs.all (fun b => b.name != pyReplaceHyphenOnce s || b.merged) with
          | false =>
            rw [List.count_cons, ih]
            simp [hst]
          | true =>
            simp [List.count_cons, ih]

theorem latest_not_mem_prune (branches : List Json)
    (dr : String → HttpResponse) (tags : List Json) :
    "latest" ∉ (pruneTags branches dr tags).1 :=
  List.count_eq_zero.mp (pruneTags_count_latest branches dr tags)

theorem processRepoReqs_latest (w : World) (branches : List Json) (rid : Json) :
    ∀ r ∈ (processRepoReqs w branches rid).1, isLatestDelete r = false := by
  intro r hr
  simp only [processRepoReqs] at hr
  split at hr
  · simp only [List.mem_singleton] at hr
    subst hr; rfl
  · simp only [List.mem_cons, List.mem_append, List.mem_map] at hr
    rcases hr with rfl | ⟨p, _, rfl⟩ | ⟨tg, htg, rfl⟩
    · rfl
    · rfl
    · have hne : tg ≠ "latest" := by
        intro e; subst e
        exact latest_not_mem_prune _ _ _ htg
      simp [isLatestDelete, hne]

theorem repoLoop_latest (w : World) (branches : List Json) :
    ∀ ids : List Json, ∀ r ∈ repoLoop w branches ids, isLatestDelete r = false := by
  intro ids
  induction ids with
  | nil => intro r hr; simp [repoLoop] at hr
  | cons rid rest ih =>
    intro r hr
    simp only [repoLoop, List.mem_append] at hr
    rcases hr with hr | hr
    · exact processRepoReqs_latest w branches rid r hr
    · split at hr
      · exact ih r hr
      · simp at hr

theorem run_latest (w : World) : ∀ r ∈ run w, isLatestDelete r = false := by
  intro r hr
  simp only [run, List.mem_cons] at hr
  rcases hr with rfl | hr
  · rfl
  · split at hr
    · simp at hr
    · split at hr
      · split at hr
        · simp at hr
        · simp at hr
        · simp only [List.mem_cons] at hr
          rcases hr with rfl | hr
          · rfl
          · split at hr
            · simp at hr
            · split at hr
              · simp only [List.mem_append, List.mem_map] at hr
                rcases hr with ⟨p, _, rfl⟩ | hr
                · rfl
                · exact repoLoop_latest w _ _ r hr
              · simp at hr
      · simp at hr

/-! ### Claims -/

/-- Claim C1: for every tag `t` in the fetched tag list with `t ≠ "latest"`,
a DELETE is issued for `t` only if, for both candidate branch names (`t`
itself and `t` with its first hyphen replaced by a slash), no fetched branch
has that exact name with `merged = false`: membership of `t` among the issued
DELETEs implies every branch carrying either candidate name is merged. -/
theorem claim_C1 (bs : List Branch) (dr : String → HttpResponse)
    (tags : List Json) (t : String)
    (h : t ∈ (pruneTags (bs.map Branch.toJson) dr tags).1) :
    t ≠ "latest"
      ∧ (∀ b ∈ bs, b.name = t → b.merged = true)
      ∧ (∀ b ∈ bs, b.name = pyReplaceHyphenOnce t → b.merged = true) := by
  obtain ⟨hlat, h1, h2⟩ := pruneTags_mem _ dr tags t h
  rw [canTagBeDeleted_map] at h1 h2
  exact ⟨hlat, (all_unmergedFree_iff _ bs).mp (Option.some.inj h1),
    (all_unmergedFree_iff _ bs).mp (Option.some.inj h2)⟩

/-- Witness for C1 at a concrete input: tag `"feature-x"` is deleted when the
only branch is a merged `feature/x`, and the conclusion holds there. -/
theorem claim_C1_witness :
    "feature-x" ≠ "latest"
      ∧ (∀ b ∈ [Branch.mk "feature/x" true], b.name = "feature-x" → b.merged = true)
      ∧ (∀ b ∈ [Branch.mk "feature/x" true],
          b.name = pyReplaceHyphenOnce "feature-x" → b.merged = true) :=
  claim_C1 [Branch.mk "feature/x" true] dr0 [Json.str "feature-x"] "feature-x"
    (by decide)

/-- Counterexample to C2 as stated: the fetched tag list of repository 1 in
`wC2` contains `"a"` (twice — the code accumulates pages verbatim and issues
one DELETE per occurrence), `"a"` is prunable (no branches at all), yet the
run issues two DELETE requests for `"a"`, not exactly one. -/
theorem claim_C2_counterexample :
    fetchTags (wC2.tagResp (Json.num 1)) = some [Json.str "a", Json.str "a"]
      ∧ canTagBeDeleted "a" [] = some true
      ∧ run wC2 = [Req.listRepos, Req.listBranches 1,
          Req.listTags (Json.num 1) 1,
          Req.deleteTag (Json.num 1) "a", Req.deleteTag (Json.num 1) "a"] :=
  ⟨rfl, rfl, rfl⟩

/-- Claim C2, amended: for a well-formed (all-string) fetched tag list, a tag
`t` other than `"latest"` both of whose candidate branch names match no
unmerged branch receives one DELETE per occurrence of `t` in the fetched
list — in particular exactly one DELETE when `t` occurs exactly once
(GitLab returns each tag of a repository once, so duplicates arise only from
overlapping or duplicated page contents). -/
theorem claim_C2 (bs : List Branch) (dr : String → HttpResponse)
    (ss : List String) (t : String)
    (hlat : t ≠ "latest")
    (h1 : ∀ b ∈ bs, b.name = t → b.merged = true)
    (h2 : ∀ b ∈ bs, b.name = pyReplaceHyphenOnce t → b.merged = true) :
    ((pruneTags (bs.map Branch.toJson) dr (ss.map Json.str)).1.count t)
      = ss.count t :=
  pruneTags_count bs dr t hlat h1 h2 ss

/-- Witness for C2 (amended) at a concrete input: a singleton tag list
`["x"]` with no branches yields exactly one DELETE for `"x"`. -/
theorem claim_C2_witness :
    ((pruneTags (([] : List Branch).map Branch.toJson) dr0
        (["x"].map Json.str)).1.count "x") = ["x"].count "x" :=
  claim_C2 [] dr0 ["x"] "x" (by decide) (by simp) (by simp)

/-- Claim C3: over every run of the pruner — every world of responses, hence
every cache repository and branch list — the number of DELETE requests for a
tag named exactly `"latest"` in the issued request trace is zero. -/
theorem claim_C3 (w : World) : (run w).countP isLatestDelete = 0 := by
  rw [List.countP_eq_zero]
  intro r hr
  simp [run_latest w r hr]

/-- Claim C5: (1) the outcome of `pruneTags` — which tags are evaluated,
which DELETEs are issued, and normal completion — is identical under any two
DELETE-response oracles, so a failing DELETE (404 for an already-deleted tag
included) never halts processing of the remaining tags; and (2) on a
well-formed tag list the issued DELETEs are exactly the prunable entries in
order, one per occurrence — every remaining tag is evaluated and no DELETE is
ever retried. -/
theorem claim_C5 :
    (∀ (branches : List Json) (dr dr' : String → HttpResponse)
       (tags : List Json),
        pruneTags branches dr tags = pruneTags branches dr' tags)
    ∧ (∀ (bs : List Branch) (dr : String → HttpResponse) (ss : List String),
        pruneTags (bs.map Branch.toJson) dr (ss.map Json.str)
          = ((ss.map Json.str).filterMap (prunableName (bs.map Branch.toJson)),
             true)) := by
  constructor
  · exact fun branches dr dr' tags => pruneTags_dr_invariant branches dr dr' tags
  · intro bs dr ss
    refine pruneTags_char _ dr (fun s => ?_) _ (fun x hx => ?_)
    · rw [canTagBeDeleted_map]; rfl
    · rcases List.mem_map.mp hx with ⟨s, _, rfl⟩
      exact ⟨s, rfl⟩

/-- Claim C10: when accumulating names from a fetched tag list, (a) a list
body never triggers the warning and contributes exactly the `'name'` values
of its dict records; (b) an entry whose name cannot be extracted is skipped
with no effect and no message; (c) non-dict entries and dicts lacking a
`'name'` key are exactly the skipped ones; (d) a non-list body triggers the
warning and appends nothing. -/
theorem claim_C10 :
    (∀ (names rs : List Json),
        appendNamesWarns (Json.arr rs) = false
          ∧ appendNames names (Json.arr rs) = names ++ rs.filterMap recordName)
    ∧ (∀ (names : List Json) (r : Json) (rs : List Json), recordName r = none →
        appendNames names (Json.arr (r :: rs)) = appendNames names (Json.arr rs))
    ∧ (∀ r : Json, (∀ kvs, r ≠ Json.obj kvs) → recordName r = none)
    ∧ (∀ kvs, jsonGet "name" kvs = none → recordName (Json.obj kvs) = none)
    ∧ (∀ (names : List Json) (d : Json), (∀ l, d ≠ Json.arr l) →
        appendNamesWarns d = true ∧ appendNames names d = names) := by
  refine ⟨fun names rs => ⟨rfl, rfl⟩, ?_, ?_, ?_, ?_⟩
  · intro names r rs h
    simp [appendNames, List.filterMap_cons, h]
  · intro r h
    cases r with
    | obj kvs => exact absurd rfl (h kvs)
    | null => rfl
    | bool b => rfl
    | num n => rfl
    | str s => rfl
    | arr l => rfl
  · intro kvs h
    simp [recordName, h]
  · intro names d h
    cases d with
    | arr l => exact absurd rfl (h l)
    | null => exact ⟨rfl, rfl⟩
    | bool b => exact ⟨rfl, rfl⟩
    | num n => exact ⟨rfl, rfl⟩
    | str s => exact ⟨rfl, rfl⟩
    | obj kvs => exact ⟨rfl, rfl⟩

/-- Witness for C10 at concrete inputs: a non-dict entry is skipped silently,
a dict without a name yields no name, and a non-list body warns and appends
nothing. -/
theorem claim_C10_witness :
    appendNames [] (Json.arr [Json.num 3, Json.obj [("name", Json.str "a")]])
        = appendNames [] (Json.arr [Json.obj [("name", Json.str "a")]])
      ∧ recordName (Json.num 3) = none
      ∧ recordName (Json.obj [("id", Json.num 1)]) = none
      ∧ (appendNamesWarns Json.null = true ∧ appendNames [] Json.null = []) :=
  ⟨claim_C10.2.1 [] (Json.num 3) [Json.obj [("name", Json.str "a")]] rfl,
   claim_C10.2.2.1 (Json.num 3) (by intro kvs h; exact Json.noConfusion h),
   claim_C10.2.2.2.1 [("id", Json.num 1)] rfl,
   claim_C10.2.2.2.2 [] Json.null (by intro l h; exact Json.noConfusion h)⟩

/-- Claim C8: in the tag pagination, a successful page 1 whose body is the
empty list makes the total page count 0 — whatever the `x-total-pages` header
says — so no further tag pages are requested (the repository's trace is just
the page-1 request); and a successful page 1 with a non-empty list body and
no header defaults the total page count to 1, again requesting no further
pages (the trace is the page-1 request followed only by DELETEs). -/
theorem claim_C8 (w : World) (branches : List Json) (rid : Json) :
    ((w.tagResp rid 1).status = 200 → (w.tagResp rid 1).body = Json.arr [] →
      tagTotalPages (w.tagResp rid 1) = 0
        ∧ (processRepoReqs w branches rid).1 = [Req.listTags rid 1])
    ∧ (∀ x xs, (w.tagResp rid 1).status = 200 →
        (w.tagResp rid 1).body = Json.arr (x :: xs) →
        (w.tagResp rid 1).xTotalPages = none →
        tagTotalPages (w.tagResp rid 1) = 1
          ∧ (processRepoReqs w branches rid).1
            = Req.listTags rid 1 ::
                ((pruneTags branches (w.deleteResp rid)
                  ((x :: xs).filterMap recordName)).1.map (Req.deleteTag rid))) := by
  constructor
  · intro h200 hbody
    have htot : tagTotalPages (w.tagResp rid 1) = 0 := by
      simp [tagTotalPages, hbody, jsonTruthy]
    refine ⟨htot, ?_⟩
    simp [processRepoReqs, h200, htot, hbody, tagPagesLoop, appendNames,
      pruneTags]
  · intro x xs h200 hbody hhdr
    have htot : tagTotalPages (w.tagResp rid 1) = 1 := by
      simp [tagTotalPages, hbody, jsonTruthy, hhdr]
    refine ⟨htot, ?_⟩
    simp [processRepoReqs, h200, htot, hbody, tagPagesLoop, appendNames]

/-- Witness for C8: empty page-1 body with header 7 gives page count 0 and a
single request; non-empty body with no header gives page count 1. -/
theorem claim_C8_witness :
    (tagTotalPages (wC8a.tagResp (Json.num 1) 1) = 0
      ∧ (processRepoReqs wC8a [] (Json.num 1)).1 = [Req.listTags (Json.num 1) 1])
    ∧ (tagTotalPages (wC8b.tagResp (Json.num 1) 1) = 1
      ∧ (processRepoReqs wC8b [] (Json.num 1)).1
          = Req.listTags (Json.num 1) 1 ::
              ((pruneTags [] (wC8b.deleteResp (Json.num 1))
                ((Json.obj [("name", Json.str "a")] :: []).filterMap recordName)).1.map
                  (Req.deleteTag (Json.num 1)))) :=
  ⟨(claim_C8 wC8a [] (Json.num 1)).1 rfl rfl,
   (claim_C8 wC8b [] (Json.num 1)).2 (Json.obj [("name", Json.str "a")]) [] rfl rfl rfl⟩

theorem deleteTag_flatten (tagName loc : String) :
    ∀ hits : List GLRepository,
      ((hits.map (fun r => (deleteTag r tagName loc).1)).flatten)
        = (hits.filter (fun r => r.tags.contains tagName)).map
            (fun r => (r.location, tagName)) := by
  intro hits
  induction hits with
  | nil => rfl
  | cons r rs ih =>
    simp only [List.map_cons, List.flatten_cons, List.filter_cons]
    by_cases h : r.tags.contains tagName
    · have hdel : (deleteTag r tagName loc).1 = [(r.location, tagName)] := by
        unfold deleteTag; rw [if_pos h]
      rw [if_pos h, hdel, ih]
      rfl
    · have hdel : (deleteTag r tagName loc).1 = [] := by
        unfold deleteTag; rw [if_neg h]
      rw [if_neg h, hdel, ih]
      rfl

theorem findDels_char (w : GitLabWorld) (serverUrl pid loc tagName : String)
    (hp : w.projectExists = true) :
    (findRepositoryAndDeleteTag w serverUrl pid loc tagName).1
      = ((w.repositories.filter (fun r => loc = r.location)).filter
          (fun r => r.tags.contains tagName)).map
            (fun r => (r.location, tagName)) := by
  simp only [findRepositoryAndDeleteTag, hp, if_true]
  have hfuse : ∀ hits : List GLRepository,
      ((hits.map (fun r => deleteTag r tagName loc)).map (fun x => x.1)).flatten
        = (hits.filter (fun r => r.tags.contains tagName)).map
            (fun r => (r.location, tagName)) := by
    intro hits
    rw [List.map_map]
    exact deleteTag_flatten tagName loc hits
  split
  · exact hfuse _
  · exact hfuse _

/-- Claim C9: with the project present, the deletions the tag deleter
performs are those for every repository whose location matches — in listing
order, not only the first match — and `delete_tag` is invoked once per
matching repository (one printed message each, so at least as many messages
as matches). -/
theorem claim_C9 (w : GitLabWorld) (serverUrl pid loc tagName : String)
    (hp : w.projectExists = true) :
    (findRepositoryAndDeleteTag w serverUrl pid loc tagName).1
      = ((w.repositories.filter (fun r => loc = r.location)).filter
          (fun r => r.tags.contains tagName)).map (fun r => (r.location, tagName))
    ∧ (findRepositoryAndDeleteTag w serverUrl pid loc tagName).2.length
        ≥ (w.repositories.filter (fun r => loc = r.location)).length := by
  refine ⟨findDels_char w serverUrl pid loc tagName hp, ?_⟩
  simp only [findRepositoryAndDeleteTag, hp, if_true]
  split
  · simp
  · simp

/-- Witness for C9: both repositories at location `"r"` get the deletion, in
listing order, and one message is printed per match. -/
theorem claim_C9_witness :
    (findRepositoryAndDeleteTag wC9 "u" "1" "r" "t").1
        = ((wC9.repositories.filter (fun r => "r" = r.location)).filter
            (fun r => r.tags.contains "t")).map (fun r => (r.location, "t"))
      ∧ (findRepositoryAndDeleteTag wC9 "u" "1" "r" "t").2.length
          ≥ (wC9.repositories.filter (fun r => "r" = r.location)).length
      ∧ (findRepositoryAndDeleteTag wC9 "u" "1" "r" "t").1
          = [("r", "t"), ("r", "t")] :=
  ⟨(claim_C9 wC9 "u" "1" "r" "t" rfl).1,
   (claim_C9 wC9 "u" "1" "r" "t" rfl).2,
   ((claim_C9 wC9 "u" "1" "r" "t" rfl).1).trans rfl⟩

/-- Claim C6: the tag deleter handles all three not-found conditions as
distinct printed messages with no deletion performed and no escaping
exception, and the run function is total (the process then exits 0):
(1) absent project prints only the project-not-found line; (2) absent
matching repository prints only the repository-not-found line; (3) absent
tag performs no deletion and prints only tag-not-found lines (one per
matching repository) — plus the repository-not-found line when there is no
match; (4) the three messages are pairwise distinct. -/
theorem claim_C6 :
    (∀ (w : GitLabWorld) (url pid loc tag : String), w.projectExists = false →
        findRepositoryAndDeleteTag w url pid loc tag
          = ([], [Msg.projectNotFound pid url]))
    ∧ (∀ (w : GitLabWorld) (url pid loc tag : String), w.projectExists = true →
        w.repositories.filter (fun r => loc = r.location) = [] →
        findRepositoryAndDeleteTag w url pid loc tag
          = ([], [Msg.repoNotFound loc]))
    ∧ (∀ (w : GitLabWorld) (url pid loc tag : String), w.projectExists = true →
        (∀ r ∈ w.repositories, tag ∉ r.tags) →
        (findRepositoryAndDeleteTag w url pid loc tag).1 = []
          ∧ ∀ m ∈ (findRepositoryAndDeleteTag w url pid loc tag).2,
              m = Msg.tagNotFound tag loc ∨ m = Msg.repoNotFound loc)
    ∧ (∀ (tag loc loc2 pid url : String),
        Msg.projectNotFound pid url ≠ Msg.repoNotFound loc
          ∧ Msg.projectNotFound pid url ≠ Msg.tagNotFound tag loc
          ∧ Msg.repoNotFound loc ≠ Msg.tagNotFound tag loc2) := by
  refine ⟨?_, ?_, ?_, ?_⟩
  · intro w url pid loc tag h
    simp [findRepositoryAndDeleteTag, h]
  · intro w url pid loc tag hp hf
    simp [findRepositoryAndDeleteTag, hp, hf]
  · intro w url pid loc tag hp habs
    have hmsg : ∀ r ∈ w.repositories.filter (fun r => loc = r.location),
        (deleteTag r tag loc).2 = Msg.tagNotFound tag loc := by
      intro r hr
      unfold deleteTag
      rw [if_neg (by simpa using habs r (List.mem_of_mem_filter hr))]
    constructor
    · rw [findDels_char w url pid loc tag hp]
      rw [List.filter_eq_nil_iff.mpr
        (fun r hr => by simpa using habs r (List.mem_of_mem_filter hr))]
      rfl
    · intro m hm
      simp only [findRepositoryAndDeleteTag, hp, if_true] at hm
      split at hm
      · simp only [List.mem_append, List.map_map, List.mem_map,
          List.mem_singleton, Function.comp] at hm
        rcases hm with ⟨r, hr, rfl⟩ | rfl
        · exact Or.inl (hmsg r hr)
        · exact Or.inr rfl
      · simp only [List.map_map, List.mem_map, Function.comp] at hm
        rcases hm with ⟨r, hr, rfl⟩
        exact Or.inl (hmsg r hr)
  · intro tag loc loc2 pid url
    refine ⟨?_, ?_, ?_⟩ <;> intro h <;> exact Msg.noConfusion h

/-- Witness for C6: the three not-found conditions at concrete worlds. -/
theorem claim_C6_witness :
    findRepositoryAndDeleteTag wC6a "u" "1" "r" "t"
        = ([], [Msg.projectNotFound "1" "u"])
      ∧ findRepositoryAndDeleteTag wC6b "u" "1" "r" "t"
          = ([], [Msg.repoNotFound "r"])
      ∧ ((findRepositoryAndDeleteTag wC6c "u" "1" "r" "t").1 = []
          ∧ ∀ m ∈ (findRepositoryAndDeleteTag wC6c "u" "1" "r" "t").2,
              m = Msg.tagNotFound "t" "r" ∨ m = Msg.repoNotFound "r") :=
  ⟨claim_C6.1 wC6a "u" "1" "r" "t" rfl,
   claim_C6.2.1 wC6b "u" "1" "r" "t" rfl (by decide),
   claim_C6.2.2.1 wC6c "u" "1" "r" "t" rfl (by decide)⟩

theorem range'_one_cons {N : Nat} (hN : 1 ≤ N) :
    List.range' 1 N = 1 :: List.range' 2 (N - 1) := by
  have h1 : N - 1 + 1 = N := Nat.succ_pred_eq_of_pos hN
  calc List.range' 1 N = List.range' 1 (N - 1 + 1) := by rw [h1]
    _ = 1 :: List.range' 2 (N - 1) := List.range'_succ 1 (N - 1) 1

/-- Claim C4, amended: with page 1 succeeding, reporting `x-total-pages = N`
(`N ≥ 1`) and every page `1..N` succeeding with a list body, the branch
accumulation is exactly the concatenation of the `N` pages' records in page
order; the tag accumulation is likewise exactly the concatenation of the `N`
pages' extracted names — provided page 1's body is non-empty (an empty page-1
body makes the tag loop take the page count as 0, see the counterexample). -/
theorem claim_C4_amended :
    (∀ (pages : Nat → HttpResponse) (N : Nat) (L : Nat → List Json),
       1 ≤ N →
       (pages 1).status = 200 →
       (pages 1).body = Json.arr (L 1) →
       (pages 1).xTotalPages = some N →
       (∀ p, 2 ≤ p → p ≤ N →
         (pages p).status = 200 ∧ (pages p).body = Json.arr (L p)) →
       fetchBranches pages = some (((List.range' 1 N).map L).flatten))
    ∧ (∀ (pages : Nat → HttpResponse) (N : Nat) (L : Nat → List Json),
       1 ≤ N →
       (pages 1).status = 200 →
       (pages 1).body = Json.arr (L 1) →
       (pages 1).xTotalPages = some N →
       L 1 ≠ [] →
       (∀ p, 2 ≤ p → p ≤ N →
         (pages p).status = 200 ∧ (pages p).body = Json.arr (L p)) →
       fetchTags pages
         = some (((List.range' 1 N).map
             (fun p => (L p).filterMap recordName)).flatten)) := by
  constructor
  · intro pages N L hN h200 hbody hhdr hall
    simp only [fetchBranches]
    rw [if_neg (by simp [h200])]
    simp only [hbody, hhdr, Option.getD_some]
    rw [branchPagesLoop_char]
    have hmap : (List.range' 2 (N - 1)).map
        (fun p => if (pages p).status = 200 then listOrNil (pages p).body else [])
        = (List.range' 2 (N - 1)).map L := by
      apply List.map_congr_left
      intro p hp
      rw [List.mem_range'_1] at hp
      obtain ⟨hs, hb⟩ := hall p hp.1 (by omega)
      rw [if_pos hs, hb]
      rfl
    rw [hmap, range'_one_cons hN, List.map_cons, List.flatten_cons]
  · intro pages N L hN h200 hbody hhdr hne hall
    have htot : tagTotalPages (pages 1) = N := by
      rw [tagTotalPages, hbody]
      simp [jsonTruthy, List.isEmpty_eq_false.mpr hne, hhdr]
    simp only [fetchTags]
    rw [if_neg (by simp [h200])]
    rw [htot, tagPagesLoop_char, hbody]
    have hmap : (List.range' 2 (N - 1)).map
        (fun p => if (pages p).status = 200 then appendNames [] (pages p).body else [])
        = (List.range' 2 (N - 1)).map (fun p => (L p).filterMap recordName) := by
      apply List.map_congr_left
      intro p hp
      rw [List.mem_range'_1] at hp
      obtain ⟨hs, hb⟩ := hall p hp.1 (by omega)
      rw [if_pos hs, hb]
      rfl
    rw [hmap, range'_one_cons hN, List.map_cons, List.flatten_cons]
    rfl

/-- Counterexample to C4 as stated for the tag loop: page 1 succeeds with a
well-formed (empty) list and reports 2 total pages, page 2 succeeds with a
well-formed list containing one record, yet the accumulated tag collection is
`[]`, not the concatenation of the two pages' records — the empty page-1 body
sets the page count to 0 and page 2 is never requested. -/
theorem claim_C4_counterexample :
    (c4CexPages 1).status = 200
      ∧ (c4CexPages 1).body = Json.arr []
      ∧ (c4CexPages 1).xTotalPages = some 2
      ∧ (c4CexPages 2).status = 200
      ∧ (c4CexPages 2).body = Json.arr [Json.obj [("name", Json.str "a")]]
      ∧ fetchTags c4CexPages = some []
      ∧ ((List.range' 1 2).map
          (fun p => (listOrNil (c4CexPages p).body).filterMap recordName)).flatten
          = [Json.str "a"]
      ∧ (some ([] : List Json) ≠ some [Json.str "a"]) :=
  ⟨rfl, rfl, rfl, rfl, rfl, rfl, rfl, by simp⟩

/-- Witness for C4 (amended) at two concrete pages: both loops accumulate the
two pages' contents in page order. -/
theorem claim_C4_witness :
    fetchBranches c4WitPages
        = some [Json.obj [("name", Json.str "a")], Json.obj [("name", Json.str "b")]]
      ∧ fetchTags c4WitPages = some [Json.str "a", Json.str "b"] :=
  ⟨(claim_C4_amended.1 c4WitPages 2 c4WitL (by decide) rfl rfl rfl
      (fun p h2 hN => by
        have hp : p = 2 := by omega
        subst hp
        exact ⟨rfl, rfl⟩)).trans rfl,
   (claim_C4_amended.2 c4WitPages 2 c4WitL (by decide) rfl rfl rfl
      (by simp [c4WitL])
      (fun p h2 hN => by
        have hp : p = 2 := by omega
        subst hp
        exact ⟨rfl, rfl⟩)).trans rfl⟩

/-- Claim C7: (1) a non-200 status on the registry-repositories listing ends
the run after that single request; (2) a non-200 status on branch page 1
(with repositories resolved) ends the run with no tag-level or deletion
requests; (3)–(4) a non-200 status on a later branch or tag page contributes
nothing for that page while every other page's data is still accumulated;
(5) DELETE responses — failures included — never affect the remaining
processing. -/
theorem claim_C7 :
    (∀ w : World, w.repoListResp.status ≠ 200 → run w = [Req.listRepos])
    ∧ (∀ (w : World) (repos ids : List Json),
        w.repoListResp.status = 200 →
        w.repoListResp.body = Json.arr repos →
        collectIds w.cacheRepositories repos = some ids →
        ids ≠ [] →
        (w.branchResp 1).status ≠ 200 →
        run w = [Req.listRepos, Req.listBranches 1])
    ∧ (∀ (pages : Nat → HttpResponse) (total : Nat) (acc : List Json),
        branchPagesLoop pages total acc
          = acc ++ ((List.range' 2 (total - 1)).map (fun p =>
              if (pages p).status = 200 then listOrNil (pages p).body
              else [])).flatten)
    ∧ (∀ (pages : Nat → HttpResponse) (total : Nat) (acc : List Json),
        tagPagesLoop pages total acc
          = acc ++ ((List.range' 2 (total - 1)).map (fun p =>
              if (pages p).status = 200 then appendNames [] (pages p).body
              else [])).flatten)
    ∧ (∀ (branches : List Json) (dr dr' : String → HttpResponse)
         (tags : List Json),
        pruneTags branches dr tags = pruneTags branches dr' tags) := by
  refine ⟨?_, ?_, ?_, ?_, ?_⟩
  · intro w h
    simp [run, h]
  · intro w repos ids h200 hbody hcoll hne hbr
    rcases ids with _ | ⟨i, is⟩
    · exact absurd rfl hne
    · simp [run, h200, hbody, hcoll, hbr]
  · exact fun pages total acc => branchPagesLoop_char pages total acc
  · exact fun pages total acc => tagPagesLoop_char pages total acc
  · exact fun branches dr dr' tags => pruneTags_dr_invariant branches dr dr' tags

/-- Witness for C7: the two aborting cases at concrete worlds. -/
theorem claim_C7_witness :
    run wC7a = [Req.listRepos]
      ∧ run wC7b = [Req.listRepos, Req.listBranches 1] :=
  ⟨claim_C7.1 wC7a (by decide),
   claim_C7.2.1 wC7b
     [Json.obj [("name", Json.str "cache"), ("id", Json.num 1)]]
     [Json.num 1] rfl rfl rfl (by simp) (by decide)⟩
